import Mathlib

/-!
Shallow embedding of the claim-validation engine of the
`okta-jwt-verifier` Go package: dynamically shaped claim values,
the rule constructors (exact match, contains-all, timestamp window)
and the verification/aggregation loop of `ParseAndVerify`.

Conventions of the embedding:
* a Go `any` value decoded from JSON is the inductive `ClaimValue`;
* a Go `error` result of a `Rule` is `Option String` (`none` = nil error,
  `some msg` = non-nil error with message `msg`);
* `time.Time` instants and `time.Duration` values are integers counting
  nanoseconds since the Unix epoch (resp. nanoseconds), the unit used by
  Go's `time` package; `time.Unix(sec, 0)` is `sec * 1000000000`;
* Go `float64` claim values are modelled as exact rationals (the claims
  under study only concern shape checks and whole-second truncation,
  never rounding of the binary representation);
* the ambient wall clock read by `time.Since` / `time.Until` inside a
  rule's closure is passed explicitly as a `wallNowNs` parameter, so the
  dependence of an evaluation on the clock is visible in the statements.
-/

namespace OktaVerifier

/-- Dynamically shaped JSON-decoded claim value, the shapes a
`map[string]any` produced by `encoding/json` can hold.  `num` is a
`json.Number` (produced when the decoder's `UseNumber` flag is set) and
carries the literal text; `float` is a `float64`. -/
inductive ClaimValue where
  | str (s : String)
  | float (q : ℚ)
  | num (s : String)
  | bool (b : Bool)
  | null
  | arr (xs : List ClaimValue)
  | obj (fields : List (String × ClaimValue))

/-- The string Go's `%T` verb prints for the dynamic type of a decoded
JSON value held in an `any`. -/
def goTypeName : ClaimValue → String
  | .str _ => "string"
  | .float _ => "float64"
  | .num _ => "json.Number"
  | .bool _ => "bool"
  | .null => "<nil>"
  | .arr _ => "[]interface \x7b\x7d"
  | .obj _ => "map[string]interface \x7b\x7d"

/-- Result of a Go function returning `error`: `none` is the nil error. -/
abbrev GoError := Option String

/-- The `Rule` function type: `func(value any) error`. -/
abbrev Rule := ClaimValue → GoError

/-- The `ClaimRule` struct.  The `Rule` field is a Go function value and
may be nil, hence the `Option`. -/
structure ClaimRule where
  Key : String
  Rule : Option OktaVerifier.Rule

/-- Evaluation of a rule's predicate on a claim value (a plain Go call
`rule.Rule(v)`); `evalRule` of a nil function is never performed by the
engine, we make it a nil error here only so the helper is total. -/
def evalRule (r : ClaimRule) (v : ClaimValue) : GoError :=
  match r.Rule with
  | none => none
  | some f => f v

/-- A comparable Go element type `T` as used by the generic rule
constructors, together with its embedding into dynamic values: `toAny`
boxes a `T` into an `any`, `fromAny` is the type assertion `value.(T)`,
`typeName` is what `%T` prints for `T`, and `goShow` is what `%v`
prints for a `T` value. -/
structure GoComparable where
  carrier : Type
  deq : DecidableEq carrier
  toAny : carrier → ClaimValue
  fromAny : ClaimValue → Option carrier
  typeName : String
  goShow : carrier → String
  fromAny_toAny : ∀ a, fromAny (toAny a) = some a

/-- The instantiation `T = string` used by the audience, client-id and
issuer rules. -/
def stringT : GoComparable where
  carrier := String
  deq := inferInstance
  toAny := .str
  fromAny := fun v => match v with | .str s => some s | _ => none
  typeName := "string"
  goShow := id
  fromAny_toAny := fun _ => rfl

/-- `WithCustomClaimExactMatchRule[T]`: checks that the claim value is a
`T` equal to `wantValue`. -/
def WithCustomClaimExactMatchRule (T : GoComparable) (claim : String)
    (wantValue : T.carrier) : ClaimRule :=
  letI := T.deq
  { Key := claim
    Rule := some fun value =>
      match T.fromAny value with
      | none => some ("expected a " ++ T.typeName ++ " but got a " ++ goTypeName value)
      | some got =>
        if wantValue ≠ got then
          some ("expected '" ++ T.goShow wantValue ++ "' but got '" ++ T.goShow got ++ "'")
        else
          none }

/-- The element-collection loop of `WithCustomClaimContainsRule`:
converts every element of the decoded array to a `T`, failing on the
first element whose type assertion fails; the collected list plays the
role of the `gotValuesSet` (only membership is ever queried). -/
def collectValues (T : GoComparable) : List ClaimValue → Except String (List T.carrier)
  | [] => .ok []
  | v :: rest =>
    match T.fromAny v with
    | none => .error ("value of array element is not a " ++ T.typeName)
    | some a => (collectValues T rest).map (fun l => a :: l)

/-- The wanted-side loop of `WithCustomClaimContainsRule`: the wanted
values absent from the observed set, in wanted-list order. -/
def missingValuesOf (T : GoComparable) (wantValues observed : List T.carrier) :
    List T.carrier :=
  letI := T.deq
  wantValues.filter (fun w => !(observed.contains w))

/-- The `strings.Builder` loop of `WithCustomClaimContainsRule`: quotes
the first missing value, then appends `, '…'` for each further one. -/
def buildMissingList (T : GoComparable) : List T.carrier → String
  | [] => ""
  | v :: rest =>
    rest.foldl (fun acc w => acc ++ ", '" ++ T.goShow w ++ "'") ("'" ++ T.goShow v ++ "'")

/-- `WithCustomClaimContainsRule[T]`: checks that the claim value is an
array of `T` containing every element of `wantValues`. -/
def WithCustomClaimContainsRule (T : GoComparable) (claim : String)
    (wantValues : List T.carrier) : ClaimRule :=
  { Key := claim
    Rule := some fun value =>
      match value with
      | .arr raw =>
        match collectValues T raw with
        | .error e => some e
        | .ok gotValues =>
          match missingValuesOf T wantValues gotValues with
          | [] => none
          | missing => some ("missing value(s): " ++ buildMissingList T missing)
      | _ => some ("expected an array but got a " ++ goTypeName value) }

/-- Nanoseconds in a second: Go's `time.Second`. -/
def nsPerSecond : Int := 1000000000

/-- Go's `time.Unix(sec, 0).UTC()` as an instant in nanoseconds. -/
def goTimeUnixUTC (sec : Int) : Int := sec * nsPerSecond

/-- Truncation toward zero of a rational, the behaviour of Go's
`int64(f)` conversion for a `float64` in range. -/
def ratTrunc (q : ℚ) : Int := Int.tdiv q.num (q.den : Int)

/-- Digit-string parsing of `strconv.ParseUint` in base 10: `none` on
an empty digit list or any non-digit character. -/
def parseBase10Digits : List Char → Option Nat
  | [] => none
  | l => l.foldl
      (fun acc c =>
        acc.bind (fun n => if c.isDigit then some (n * 10 + (c.toNat - 48)) else none))
      (some 0)

/-- Go's `strconv.ParseInt(s, 10, 64)` as called by
`json.Number.Int64`: optional sign, base-10 digits, int64 range check.
Error messages follow `strconv`'s `*NumError` formatting. -/
def goParseInt64 (s : String) : Except String Int :=
  let failWith := fun (msg : String) =>
    Except.error ("strconv.ParseInt: parsing \"" ++ s ++ "\": " ++ msg)
  let body : Bool × List Char :=
    match s.toList with
    | '-' :: rest => (true, rest)
    | '+' :: rest => (false, rest)
    | l => (false, l)
  match parseBase10Digits body.2 with
  | none => failWith "invalid syntax"
  | some n =>
    if body.1 then
      if n ≤ 2 ^ 63 then .ok (-(n : Int)) else failWith "value out of range"
    else
      if n ≤ 2 ^ 63 - 1 then .ok (n : Int) else failWith "value out of range"

/-- `parseTimestamp(value, useJSONNumber)`: decode the claim value as a
Unix timestamp, requiring a `json.Number` in JSON-number mode and a
`float64` otherwise, and convert it with `time.Unix(…, 0).UTC()`.
On error Go returns the zero `time.Time` together with the error; only
the error is propagated by the rule, so the embedding returns `Except`. -/
def parseTimestamp (value : ClaimValue) (useJSONNumber : Bool) : Except String Int :=
  if useJSONNumber then
    match value with
    | .num s =>
      match goParseInt64 s with
      | .error e => .error e
      | .ok unixTime => .ok (goTimeUnixUTC unixTime)
    | _ => .error ("expected a json.Number but got a " ++ goTypeName value)
  else
    match value with
    | .float q => .ok (goTimeUnixUTC (ratTrunc q))
    | _ => .error ("expected a float64 but got a " ++ goTypeName value)

/-- Go's `time.Since(t)`, reading the ambient wall clock `wallNowNs`:
the duration `now − t` in nanoseconds. -/
def goTimeSince (wallNowNs : Int) (t : Int) : Int := wallNowNs - t

/-- Go's `time.Until(t)`, reading the ambient wall clock `wallNowNs`:
the duration `t − now` in nanoseconds. -/
def goTimeUntil (wallNowNs : Int) (t : Int) : Int := t - wallNowNs

/-- `withTimestampRule(claim, leeway, useJSONNumber, comparer, errMsg)`:
parse the claim value as a timestamp and fail with `errMsg` when the
comparer's duration exceeds `time.Second * time.Duration(leeway)`. -/
def withTimestampRule (claim : String) (leeway : Int) (useJSONNumber : Bool)
    (comparer : Int → Int) (errMsg : String) : ClaimRule :=
  { Key := claim
    Rule := some fun value =>
      match parseTimestamp value useJSONNumber with
      | .error e => some e
      | .ok ts =>
        if comparer ts > nsPerSecond * leeway then some errMsg else none }

/-- Package-level `WithExpirationRule(leeway)`: float64 mode, comparer
`time.Since` reading the ambient wall clock `wallNowNs`. -/
def WithExpirationRule (wallNowNs : Int) (leeway : Int) : ClaimRule :=
  withTimestampRule "exp" leeway false (goTimeSince wallNowNs) "token is expired"

/-- Package-level `WithExpirationRuleJSONNumber(leeway)`. -/
def WithExpirationRuleJSONNumber (wallNowNs : Int) (leeway : Int) : ClaimRule :=
  withTimestampRule "exp" leeway true (goTimeSince wallNowNs) "token is expired"

/-- Package-level `WithIssuedAtRule(leeway)`.  The Go source passes
`time.Since` as the comparer here (not `time.Until`), which the
theorems below examine. -/
def WithIssuedAtRule (wallNowNs : Int) (leeway : Int) : ClaimRule :=
  withTimestampRule "iat" leeway false (goTimeSince wallNowNs) "token was issued in the future"

/-- Package-level `WithIssuedAtRuleJSONNumber(leeway)`, also built on
`time.Since`. -/
def WithIssuedAtRuleJSONNumber (wallNowNs : Int) (leeway : Int) : ClaimRule :=
  withTimestampRule "iat" leeway true (goTimeSince wallNowNs) "token was issued in the future"

/-- The `Verifier` struct, restricted to the fields the claim engine
reads: the issuer string, the JSON-number decoding flag, and the
injectable `now func() time.Time` field (modelled by the instant it
would return, in nanoseconds).  The HTTP client, cache and well-known
endpoint belong to the external key-resolution collaborator. -/
structure Verifier where
  issuer : String
  useJSONNumber : Bool
  nowField : Int

/-- Method `Verifier.WithIssuerRule()`. -/
def Verifier.WithIssuerRule (j : Verifier) : ClaimRule :=
  WithCustomClaimExactMatchRule stringT "iss" j.issuer

/-- Method `Verifier.WithExpirationRule(leeway)`: decoding mode from the
verifier, comparer `time.Since` reading the ambient wall clock. -/
def Verifier.WithExpirationRule (j : Verifier) (wallNowNs : Int) (leeway : Int) : ClaimRule :=
  withTimestampRule "exp" leeway j.useJSONNumber (goTimeSince wallNowNs) "token is expired"

/-- Method `Verifier.WithIssuedAtRule(leeway)`: decoding mode from the
verifier, comparer `time.Until` reading the ambient wall clock. -/
def Verifier.WithIssuedAtRule (j : Verifier) (wallNowNs : Int) (leeway : Int) : ClaimRule :=
  withTimestampRule "iat" leeway j.useJSONNumber (goTimeUntil wallNowNs) "token was issued in the future"

/-- A decoded token's claim set, the `jwt.MapClaims` mapping; keys are
unique, and only `claims[rule.Key]` lookups are performed on it. -/
abbrev ClaimMapping := List (String × ClaimValue)

/-- The `JWT` struct returned by `ParseAndVerify`; its zero value
`JWT\x7b\x7d` has a nil `Claims` map, modelled by `none`. -/
structure JWT where
  Claims : Option ClaimMapping

/-- One iteration of the rule loop of `ParseAndVerify`: record
`claim '<key>' not found` for an absent key, skip a nil rule function,
and record `claim '<key>' is invalid: <reason>` for a failing
predicate, appending to the `verificationErrors` accumulator. -/
def verificationStep (claims : ClaimMapping) (acc : List String) (rule : ClaimRule) :
    List String :=
  match claims.lookup rule.Key with
  | none => acc ++ ["claim '" ++ rule.Key ++ "' not found"]
  | some v =>
    match rule.Rule with
    | none => acc
    | some f =>
      match f v with
      | none => acc
      | some e => acc ++ ["claim '" ++ rule.Key ++ "' is invalid: " ++ e]

/-- The rule loop of `ParseAndVerify`: walk the rules in order starting
from an empty `verificationErrors` slice. -/
def verificationErrorsOf (claims : ClaimMapping) (rules : List ClaimRule) : List String :=
  rules.foldl (verificationStep claims) []

/-- `Verifier.ParseAndVerify`: the external phase (key resolution, the
`jwt.Parse` call and the `jwt.MapClaims` type assertion) is summarised
by the `parsed` argument — `.error e` when any of those steps returned
an error, `.ok claims` when parsing succeeded with the decoded claim
mapping.  The verification phase then runs the rule loop and either
returns the parsed JWT or the aggregated error, exactly as the Go
method body does after `parseJWT`.  The Go pair `(JWT, error)` is the
returned product. -/
def ParseAndVerify (parsed : Except String ClaimMapping) (rules : List ClaimRule) :
    JWT × GoError :=
  match parsed with
  | .error e => (⟨none⟩, some e)
  | .ok claims =>
    let verificationErrors := verificationErrorsOf claims rules
    if verificationErrors.length ≠ 0 then
      (⟨none⟩, some (String.intercalate "; " verificationErrors))
    else
      (⟨some claims⟩, none)

/-- Modelled from the spec, for the refinement statement of the
aggregation claim: the failure message a single rule contributes —
`claim '<key>' not found` for an absent key, `claim '<key>' is
invalid: <reason>` for a failing predicate, nothing otherwise. -/
def specRuleFailure (claims : ClaimMapping) (rule : ClaimRule) : Option String :=
  match claims.lookup rule.Key with
  | none => some ("claim '" ++ rule.Key ++ "' not found")
  | some v =>
    match rule.Rule with
    | none => none
    | some f =>
      match f v with
      | none => none
      | some e => some ("claim '" ++ rule.Key ++ "' is invalid: " ++ e)

/-! Shared lemmas relating the loops of the source to their
specification-side descriptions. -/

theorem verificationStep_eq (claims : ClaimMapping) (acc : List String) (rule : ClaimRule) :
    verificationStep claims acc rule = acc ++ (specRuleFailure claims rule).toList := by
  unfold verificationStep specRuleFailure
  cases claims.lookup rule.Key with
  | none => rfl
  | some v =>
    cases rule.Rule with
    | none => simp
    | some f => cases hfv : f v <;> simp [hfv]

theorem foldl_verificationStep (claims : ClaimMapping) (rules : List ClaimRule) :
    ∀ acc, rules.foldl (verificationStep claims) acc
      = acc ++ rules.filterMap (specRuleFailure claims) := by
  induction rules with
  | nil => intro acc; simp
  | cons r rs ih =>
    intro acc
    rw [List.foldl_cons, ih, verificationStep_eq]
    cases h : specRuleFailure claims r <;> simp [List.filterMap_cons, h]

theorem verificationErrorsOf_eq (claims : ClaimMapping) (rules : List ClaimRule) :
    verificationErrorsOf claims rules = rules.filterMap (specRuleFailure claims) := by
  simpa [verificationErrorsOf] using foldl_verificationStep claims rules []

theorem collectValues_map_toAny (T : GoComparable) (elems : List T.carrier) :
    collectValues T (elems.map T.toAny) = .ok elems := by
  induction elems with
  | nil => rfl
  | cons a rest ih => simp [collectValues, T.fromAny_toAny, ih, Except.map]

theorem intercalate_go_foldl (sep : String) (l : List String) :
    ∀ acc, String.intercalate.go acc sep l = l.foldl (fun a b => a ++ sep ++ b) acc := by
  induction l with
  | nil => intro acc; rfl
  | cons x xs ih => intro acc; simp [String.intercalate.go, List.foldl_cons, ih]

theorem buildMissingList_eq (T : GoComparable) (v : T.carrier) (rest : List T.carrier) :
    buildMissingList T (v :: rest)
      = String.intercalate ", "
          ((v :: rest).map (fun w => "'" ++ T.goShow w ++ "'")) := by
  have hgo := intercalate_go_foldl ", " (rest.map (fun w => "'" ++ T.goShow w ++ "'"))
  simp only [List.map_cons, String.intercalate, hgo, List.foldl_map]
  show rest.foldl (fun acc w => acc ++ ", '" ++ T.goShow w ++ "'") _ = _
  have hf : (fun (a : String) (w : T.carrier) => a ++ ", '" ++ T.goShow w ++ "'")
      = (fun a w => a ++ ", " ++ ("'" ++ T.goShow w ++ "'")) := by
    funext a w
    have h : (", '" : String) = ", " ++ "'" := rfl
    rw [h, ← String.append_assoc a ", " "'",
      ← String.append_assoc (a ++ ", ") ("'" ++ T.goShow w) "'",
      ← String.append_assoc (a ++ ", ") "'" (T.goShow w)]
  rw [hf]

theorem ratTrunc_intCast (n : Int) : ratTrunc ((n : ℚ)) = n := by
  simp [ratTrunc]

/-! Claim theorems. -/

/-- Claim C1: for every claim mapping and rule list, the verification
phase of `ParseAndVerify` succeeds exactly when no rule records a
failure, and otherwise returns the single error obtained by joining the
per-rule failure messages (`claim '<key>' is invalid: <reason>` for a
failed predicate, `claim '<key>' not found` for an absent key) with
`; ` in rule-list order. -/
theorem parseAndVerify_aggregation (claims : ClaimMapping) (rules : List ClaimRule) :
    ParseAndVerify (.ok claims) rules
      = if rules.filterMap (specRuleFailure claims) = [] then
          (⟨some claims⟩, none)
        else
          (⟨none⟩, some (String.intercalate "; " (rules.filterMap (specRuleFailure claims)))) := by
  by_cases hm : rules.filterMap (specRuleFailure claims) = [] <;>
    simp [ParseAndVerify, verificationErrorsOf_eq, hm, List.length_eq_zero]

/-- Claim C2 (code bug): the package-level `WithIssuedAtRule` passes
`time.Since` instead of `time.Until` to `withTimestampRule`, so with
leeway 60s and wall clock at second 1000 it accepts an `iat` of second
1090 — which is 90 > 60 seconds in the future and must fail per the
claim and the function's own doc comment — while it rejects an `iat` of
second 910 (90 seconds in the past) as "issued in the future". -/
theorem withIssuedAtRule_direction_reversed :
    evalRule (WithIssuedAtRule (1000 * nsPerSecond) 60) (.float 1090) = none
      ∧ ((1090 : Int) - 1000 > 60)
      ∧ evalRule (WithIssuedAtRule (1000 * nsPerSecond) 60) (.float 910)
          = some "token was issued in the future"
      ∧ ¬((910 : Int) - 1000 > 60) := by
  refine ⟨by decide, by decide, by decide, by decide⟩

/-- Claim C3: the expiration rule (float64 mode) with non-negative
leeway fails with "token is expired" exactly when the wall clock minus
the claimed timestamp exceeds the leeway (strict comparison, measured
in nanoseconds: `now − ts·10⁹ > leeway·10⁹`), and succeeds otherwise —
in particular a difference of exactly the leeway passes. -/
theorem expirationRule_window (iss : String) (nowField wallNowNs leeway ts : Int)
    (hL : 0 ≤ leeway) :
    evalRule (Verifier.WithExpirationRule ⟨iss, false, nowField⟩ wallNowNs leeway)
        (.float ((ts : ℚ)))
      = if wallNowNs - ts * nsPerSecond > leeway * nsPerSecond then
          some "token is expired"
        else
          none := by
  unfold Verifier.WithExpirationRule withTimestampRule evalRule
  rw [Int.mul_comm leeway nsPerSecond]
  simp [parseTimestamp, ratTrunc_intCast, goTimeUnixUTC, goTimeSince]

/-- Claim C3 witness: leeway 60, wall clock at second 1000 — an `exp`
of second 910 fails ("token is expired", 90 > 60), an `exp` of exactly
second 940 passes (difference exactly the leeway, strict `>`). -/
theorem expirationRule_window_witness :
    evalRule (Verifier.WithExpirationRule ⟨"https://issuer", false, 0⟩ (1000 * nsPerSecond) 60)
        (.float (((910 : Int) : ℚ)))
      = some "token is expired"
    ∧ evalRule (Verifier.WithExpirationRule ⟨"https://issuer", false, 0⟩ (1000 * nsPerSecond) 60)
        (.float (((940 : Int) : ℚ)))
      = none := by
  constructor
  · rw [expirationRule_window "https://issuer" 0 (1000 * nsPerSecond) 60 910 (by decide)]
    decide
  · rw [expirationRule_window "https://issuer" 0 (1000 * nsPerSecond) 60 940 (by decide)]
    decide

/-- Claim C4 counterexample: the contains-all rule with an empty wanted
set does not succeed on every claim value — on the non-array value
`"bar"` it fails with a type-mismatch error. -/
theorem containsRule_empty_wanted_nonarray_fails :
    evalRule (WithCustomClaimContainsRule stringT "grp" []) (.str "bar")
      = some "expected an array but got a string" := by
  decide

/-- Claim C4 (amended): the contains-all rule with an empty wanted set
succeeds on every claim value that is an array all of whose elements
are of the rule's element type. -/
theorem containsRule_empty_wanted_succeeds (T : GoComparable) (k : String)
    (elems : List T.carrier) :
    evalRule (WithCustomClaimContainsRule T k []) (.arr (elems.map T.toAny)) = none := by
  simp [evalRule, WithCustomClaimContainsRule, collectValues_map_toAny, missingValuesOf]

/-- Claim C5 counterexample: a wanted list with a duplicated entry does
not list each missing value exactly once — with wanted `["a", "a"]` and
an empty claim array the message quotes `'a'` twice. -/
theorem containsRule_duplicate_listed_twice :
    evalRule (WithCustomClaimContainsRule stringT "grp" ["a", "a"]) (.arr [])
      = some "missing value(s): 'a', 'a'" := by
  decide

/-- Claim C5 (amended): when wanted values are missing from the claim
array, the error message lists the missing wanted entries in the order
they appear in the wanted list — one occurrence per occurrence in that
list, so duplicated wanted entries are repeated — as a comma-separated
quoted list prefixed with "missing value(s): ". -/
theorem containsRule_missing_message (T : GoComparable) (k : String)
    (wanted elems : List T.carrier)
    (h : missingValuesOf T wanted elems ≠ []) :
    evalRule (WithCustomClaimContainsRule T k wanted) (.arr (elems.map T.toAny))
      = some ("missing value(s): " ++ String.intercalate ", "
          ((missingValuesOf T wanted elems).map (fun w => "'" ++ T.goShow w ++ "'"))) := by
  simp only [evalRule, WithCustomClaimContainsRule]
  rw [collectValues_map_toAny]
  cases hm : missingValuesOf T wanted elems with
  | nil => exact absurd hm h
  | cons v rest => simp [hm, buildMissingList_eq]

/-- Claim C5 witness: wanted `["a", "d"]` against claim array
`["a", "b", "c"]` fails with exactly `missing value(s): 'd'`. -/
theorem containsRule_missing_message_witness :
    evalRule (WithCustomClaimContainsRule stringT "grp" ["a", "d"])
        (.arr (["a", "b", "c"].map stringT.toAny))
      = some "missing value(s): 'd'" := by
  have hmv : missingValuesOf stringT ["a", "d"] ["a", "b", "c"] = ["d"] := rfl
  rw [containsRule_missing_message stringT "grp" ["a", "d"] ["a", "b", "c"]
    (by rw [hmv]; simp)]
  decide

/-- Claim C6: when a rule's key is absent from the claim mapping,
verifying that single rule records exactly one failure, the message
`claim '<key>' not found`, and the outcome does not depend on the
rule's predicate (which is therefore never invoked). -/
theorem absentKey_notFound (claims : ClaimMapping) (k : String)
    (p : Option Rule) (h : claims.lookup k = none) :
    verificationErrorsOf claims [⟨k, p⟩] = ["claim '" ++ k ++ "' not found"]
      ∧ ParseAndVerify (.ok claims) [⟨k, p⟩]
          = (⟨none⟩, some ("claim '" ++ k ++ "' not found")) := by
  have herrs : verificationErrorsOf claims [⟨k, p⟩]
      = ["claim '" ++ k ++ "' not found"] := by
    simp [verificationErrorsOf, verificationStep, h]
  refine ⟨herrs, ?_⟩
  simp [ParseAndVerify, herrs, String.intercalate, String.intercalate.go]

/-- Claim C6 witness: a mapping holding only `aud`, checked against a
rule for `sub` with a nil predicate. -/
theorem absentKey_notFound_witness :
    ParseAndVerify (.ok [("aud", .str "x")]) [⟨"sub", none⟩]
      = (⟨none⟩, some "claim 'sub' not found") :=
  (absentKey_notFound [("aud", .str "x")] "sub" none rfl).2

/-- Claim C7: the exact-match rule for a comparable element type with
expected value `want` succeeds on a claim value equal to `want`; on any
other value of the same type it fails with a message containing both
values; on a value of any other dynamic type it fails with a
type-mismatch message naming the expected and the actual type. -/
theorem exactMatchRule_spec (T : GoComparable) (k : String) (want : T.carrier) :
    evalRule (WithCustomClaimExactMatchRule T k want) (T.toAny want) = none
    ∧ (∀ got, got ≠ want →
        evalRule (WithCustomClaimExactMatchRule T k want) (T.toAny got)
          = some ("expected '" ++ T.goShow want ++ "' but got '" ++ T.goShow got ++ "'"))
    ∧ (∀ v, T.fromAny v = none →
        evalRule (WithCustomClaimExactMatchRule T k want) v
          = some ("expected a " ++ T.typeName ++ " but got a " ++ goTypeName v)) := by
  letI := T.deq
  refine ⟨?_, ?_, ?_⟩
  · simp [evalRule, WithCustomClaimExactMatchRule, T.fromAny_toAny]
  · intro got hne
    have hw : ¬want = got := fun hw => hne hw.symm
    simp [evalRule, WithCustomClaimExactMatchRule, T.fromAny_toAny, hw]
  · intro v hv
    simp [evalRule, WithCustomClaimExactMatchRule, hv]

/-- Claim C7 witness: the string instantiation with expected audience
`foo` — the value `foo` passes, `Tashuan` fails with both values in the
message, and an array value fails naming both types (the messages the
repository's own tests expect). -/
theorem exactMatchRule_spec_witness :
    evalRule (WithCustomClaimExactMatchRule stringT "aud" "foo") (stringT.toAny "foo") = none
    ∧ evalRule (WithCustomClaimExactMatchRule stringT "aud" "foo") (stringT.toAny "Tashuan")
        = some "expected 'foo' but got 'Tashuan'"
    ∧ evalRule (WithCustomClaimExactMatchRule stringT "aud" "foo") (.arr [.str "x"])
        = some "expected a string but got a []interface \x7b\x7d" := by
  refine ⟨(exactMatchRule_spec stringT "aud" "foo").1, ?_, ?_⟩
  · rw [(exactMatchRule_spec stringT "aud" "foo").2.1 "Tashuan"
      (by letI := stringT.deq; decide)]
    rfl
  · rw [(exactMatchRule_spec stringT "aud" "foo").2.2 (.arr [.str "x"]) rfl]
    rfl

/-- Claim C8 counterexample: in JSON-number decoding mode a value of
the matching dynamic shape (`json.Number`) is not always converted to
an instant — the literal `1.5` makes `parseTimestamp` return the
`strconv` parsing error instead. -/
theorem parseTimestamp_jsonNumber_fraction :
    parseTimestamp (.num "1.5") true
      = .error "strconv.ParseInt: parsing \"1.5\": invalid syntax" := by
  rfl

/-- Claim C8 (amended): `parseTimestamp` requires a `json.Number` in
JSON-number mode and a `float64` in floating-point mode, failing with a
type-mismatch error naming the expected and actual types on any other
shape; a `float64` is converted to a UTC instant with whole-second
precision (sub-second precision truncated), and a `json.Number` is so
converted provided its literal parses as a base-10 int64 — otherwise
the number-parsing error is returned. -/
theorem parseTimestamp_modes :
    (∀ v : ClaimValue, (∀ s, v ≠ .num s) →
      parseTimestamp v true = .error ("expected a json.Number but got a " ++ goTypeName v))
    ∧ (∀ v : ClaimValue, (∀ q, v ≠ .float q) →
      parseTimestamp v false = .error ("expected a float64 but got a " ++ goTypeName v))
    ∧ (∀ s n, goParseInt64 s = .ok n →
      parseTimestamp (.num s) true = .ok (n * nsPerSecond))
    ∧ (∀ q : ℚ, parseTimestamp (.float q) false = .ok (ratTrunc q * nsPerSecond)) := by
  refine ⟨?_, ?_, ?_, ?_⟩
  · intro v hv
    cases v with
    | num s => exact absurd rfl (hv s)
    | str s => rfl
    | float q => rfl
    | bool b => rfl
    | null => rfl
    | arr xs => rfl
    | obj fields => rfl
  · intro v hv
    cases v with
    | float q => exact absurd rfl (hv q)
    | str s => rfl
    | num s => rfl
    | bool b => rfl
    | null => rfl
    | arr xs => rfl
    | obj fields => rfl
  · intro s n hs
    simp [parseTimestamp, hs, goTimeUnixUTC]
  · intro q
    rfl

/-- Claim C8 witness: a string fails float64 mode naming both types, a
whole-second `json.Number` converts to the corresponding instant, and a
fractional float truncates to whole seconds. -/
theorem parseTimestamp_modes_witness :
    parseTimestamp (.str "foobar") false = .error "expected a float64 but got a string"
    ∧ parseTimestamp (.num "1631369955") true = .ok (1631369955 * nsPerSecond)
    ∧ parseTimestamp (.float (mkRat 3 2)) false = .ok (1 * nsPerSecond) := by
  refine ⟨?_, ?_, ?_⟩
  · rw [parseTimestamp_modes.2.1 (.str "foobar") (fun q => by simp)]
    rfl
  · rw [parseTimestamp_modes.2.2.1 "1631369955" 1631369955 rfl]
  · have h32 : ratTrunc (mkRat 3 2) = 1 := by decide
    rw [parseTimestamp_modes.2.2.2 (mkRat 3 2), h32]

/-- Claim C9 (code bug): the timestamp rules read the ambient wall
clock inside the predicate (`time.Since` / `time.Until`), not the
verifier's injectable `now` field — with the injected now fixed at 0,
the same `iat` rule on the same claim value fails at one wall-clock
instant and passes at another, while changing the injected now never
changes the rule at all. -/
theorem issuedAtRule_reads_wall_clock :
    evalRule (Verifier.WithIssuedAtRule ⟨"https://issuer", false, 0⟩ 0 60) (.float 90)
      = some "token was issued in the future"
    ∧ evalRule (Verifier.WithIssuedAtRule ⟨"https://issuer", false, 0⟩ (90 * nsPerSecond) 60)
        (.float 90)
      = none
    ∧ (∀ (iss : String) (b : Bool) (n₁ n₂ wallNowNs leeway : Int),
        Verifier.WithIssuedAtRule ⟨iss, b, n₁⟩ wallNowNs leeway
          = Verifier.WithIssuedAtRule ⟨iss, b, n₂⟩ wallNowNs leeway) :=
  ⟨by decide, by decide, fun _ _ _ _ _ _ => rfl⟩

/-- Claim C10: whenever `ParseAndVerify` returns a non-nil error — from
the external parse phase or from claim-rule validation — the returned
`JWT` is the zero value with a nil claim mapping. -/
theorem parseAndVerify_error_zero_jwt (parsed : Except String ClaimMapping)
    (rules : List ClaimRule) (h : (ParseAndVerify parsed rules).2 ≠ none) :
    (ParseAndVerify parsed rules).1 = ⟨none⟩ := by
  cases parsed with
  | error e => rfl
  | ok claims =>
    by_cases hl : (verificationErrorsOf claims rules).length ≠ 0
    · simp [ParseAndVerify, hl]
    · exact absurd (by simp [ParseAndVerify, hl]) h

/-- Claim C10 witness: a failed key resolution propagates its error and
the zero `JWT`. -/
theorem parseAndVerify_error_zero_jwt_witness :
    (ParseAndVerify (.error "getting jwks uri: boom") []).1 = ⟨none⟩ :=
  parseAndVerify_error_zero_jwt (.error "getting jwks uri: boom") [] (by decide)

end OktaVerifier
